import Mathlib

/-!
Shallow embedding of the extraction pipeline of the Shopify-Insights
repository (src/app/scraper.py together with the record types of
src/app/models.py), and proofs settling the frozen claims about it.

Conventions of the embedding:
* Parsed HTML documents are modelled as forests of `Node` values; the
  BeautifulSoup operations used by the code (get_text, find, find_all,
  select, find_next_sibling, the `.string` accessor) are implemented over
  that model with their documented semantics.
* The HTTP layer is a `World` mapping a URL to either an absent response
  (a connection failure, httpx.RequestError) or a response carrying a
  status code, the JSON parse of its body, and the parsed document tree.
* Python exceptions are modelled explicitly: functions that can raise an
  exception not caught inside the scraper return `Except`; errors that the
  source catches at a boundary are converted to empty results exactly
  where the source does so.
* Python float values coming from the product feed are modelled as exact
  rationals; unicode corner cases of str.strip and of the regex character
  classes are modelled over ASCII, and scheme-less or dot-segment
  relative URL resolution corners of urljoin are simplified, since no
  claim depends on them.
-/

/-! ## Basic character and string helpers (Python semantics) -/

/-- Decimal digit test, the `str.isdigit` / regex `\d` test over ASCII. -/
def isDigitC (c : Char) : Bool := '0' ≤ c && c ≤ '9'

/-- ASCII whitespace, the regex `\s` class and the default `str.strip` set. -/
def isSpaceC (c : Char) : Bool :=
  c = ' ' || c = '\t' || c = '\n' || c = '\r' || c = '\x0b' || c = '\x0c'

/-- ASCII letter test. -/
def isAlphaC (c : Char) : Bool :=
  ('a' ≤ c && c ≤ 'z') || ('A' ≤ c && c ≤ 'Z')

/-- ASCII letter-or-digit test. -/
def isAlnumC (c : Char) : Bool := isAlphaC c || isDigitC c

/-- Regex word-character class `\w` over ASCII. -/
def isWordC (c : Char) : Bool := isAlnumC c || c = '_'

/-- Keep only the decimal digits of a character list, the
`filter(str.isdigit, s)` step of the phone-number cleanup. -/
def digitsOnly (l : List Char) : List Char := l.filter isDigitC

/-- Number of decimal digits in a character list. -/
def countDig (l : List Char) : Nat := (digitsOnly l).length

/-- Python `str.strip()` on a character list: remove leading and trailing
whitespace. -/
def pyStripL (l : List Char) : List Char :=
  ((l.dropWhile isSpaceC).reverse.dropWhile isSpaceC).reverse

/-- Python `str.strip()` on a string. -/
def pyStrip (s : String) : String := String.mk (pyStripL s.data)

/-- Containment of `pat` as a contiguous sub-list of `l` (the Python
`pat in s` test and an unanchored regex literal search). -/
def containsL (pat : List Char) : List Char → Bool
  | [] => pat.isEmpty
  | c :: rest => pat.isPrefixOf (c :: rest) || containsL pat rest

/-- String version of `containsL`. -/
def containsStr (s pat : String) : Bool := containsL pat.data s.data

/-- Python `str.lower()` over ASCII. -/
def lowerS (s : String) : String := String.mk (s.data.map Char.toLower)

/-- Python `str.startswith(pre)`. -/
def startsWithS (s pre : String) : Bool := pre.data.isPrefixOf s.data

/-- Case-insensitive match of `kw` against a prefix of `l`, returning the
remainder after the match. -/
def matchCI : List Char → List Char → Option (List Char)
  | [], l => some l
  | _ :: _, [] => none
  | k :: ks, c :: cs => if k.toLower = c.toLower then matchCI ks cs else none

/-- Auxiliary scan for `wordSearch`: `prevW` records whether the previous
character was a word character. -/
def wordSearchAux (kw : List Char) : Bool → List Char → Bool
  | _, [] => false
  | prevW, c :: rest =>
    (!prevW &&
      (match matchCI kw (c :: rest) with
       | some [] => true
       | some (c2 :: _) => !isWordC c2
       | none => false)) ||
    wordSearchAux kw (isWordC c) rest

/-- Case-insensitive word-bounded search, the semantics of
`re.search(rf'\b{kw}\b', s, re.IGNORECASE)` for a keyword made of word
characters. -/
def wordSearch (kw : List Char) (l : List Char) : Bool := wordSearchAux kw false l

/-- First-occurrence deduplication of a string list; models the
`list(set(...))` steps of the source, whose iteration order Python leaves
unspecified (membership, not order, is what the claims use). -/
def dedupFirst : List String → List String
  | [] => []
  | s :: rest => if rest.contains s then ((dedupFirst rest)) else s :: dedupFirst rest

/-- Append `x` unless already present; models `set.add` on an accumulator. -/
def insertNew (s : List String) (x : String) : List String :=
  if s.contains x then s else s ++ [x]

/-- Dict-style association update: replace in place when the key exists,
append otherwise (Python `d[k] = v`). -/
def upsert {α : Type} (k : String) (v : α) : List (String × α) → List (String × α)
  | [] => [(k, v)]
  | (k2, v2) :: rest => if k2 = k then (k, v) :: rest else (k2, v2) :: upsert k v rest

/-- Association lookup (Python `d.get(k)`). -/
def lookupS {α : Type} (k : String) : List (String × α) → Option α
  | [] => none
  | (k2, v2) :: rest => if k2 = k then some v2 else lookupS k rest

/-! ## Blank-line collapsing (`_fetch_and_format_page_content`, line 131)

`re.sub(r'\n{3,}', '\n\n', text)` rewrites every maximal run of three or
more newline characters to exactly two newline characters.  Dropping the
leading newline of any three-newline run, repeatedly, computes the same
result, and is structurally recursive. -/

/-- The cleanup `re.sub(r'\n{3,}', '\n\n', text)` on a character list. -/
def collapseNL : List Char → List Char
  | [] => []
  | c :: rest =>
    if c = '\n' && rest.take 2 = ['\n', '\n'] then collapseNL rest
    else c :: collapseNL rest

/-- The cleanup step of `_fetch_and_format_page_content` on a string. -/
def cleanText (s : String) : String := String.mk (collapseNL s.data)

/-- Whether a character list contains three consecutive newline characters,
that is, a run of two or more consecutive blank lines. -/
def hasNL3 : List Char → Bool
  | [] => false
  | c :: rest => (c = '\n' && rest.take 2 = ['\n', '\n']) || hasNL3 rest

/-! ## URL handling (`__init__`, `urljoin`, hero-handle splitting) -/

/-- Split a character list at the first occurrence of `pat`, returning the
part before and the part after the occurrence. -/
def splitOnceL (pat : List Char) : List Char → Option (List Char × List Char)
  | [] => if pat.isPrefixOf ([] : List Char) then some ([], []) else none
  | c :: rest =>
    if pat.isPrefixOf (c :: rest) then some ([], (c :: rest).drop pat.length)
    else (splitOnceL pat rest).map (fun pr => (c :: pr.1, pr.2))

/-- Remainder after the first occurrence of `pat`, when it occurs. -/
def dropThrough (pat l : List Char) : Option (List Char) :=
  (splitOnceL pat l).map (fun pr => pr.2)

/-- Fuel-driven left-to-right non-overlapping scan: remainder after the last
occurrence of `pat` (Python `s.split(pat)[-1]`).  Each found occurrence
strictly shortens the list, so `l.length` fuel always suffices. -/
def afterLastAux (pat : List Char) : Nat → List Char → List Char
  | 0, l => l
  | fuel + 1, l =>
    match dropThrough pat l with
    | some r => afterLastAux pat fuel r
    | none => l

/-- Python `s.split(pat)[-1]` for a non-empty separator `pat`. -/
def afterLastOcc (pat l : List Char) : List Char := afterLastAux pat l.length l

/-- The `__init__` normalization of the target address: default the scheme
to https when absent, then strip all trailing slashes (`url.rstrip('/')`). -/
def normalizeBase (url : String) : String :=
  let u := if startsWithS url "http://" || startsWithS url "https://" then url
           else "https://" ++ url
  String.mk ((u.data.reverse.dropWhile (fun c => c = '/')).reverse)

/-- Scheme-and-host part of an absolute URL: everything before the first
slash after the `://` marker. -/
def originChars (l : List Char) : List Char :=
  match splitOnceL "://".data l with
  | some (pre, rest) => pre ++ "://".data ++ rest.takeWhile (fun c => c ≠ '/')
  | none => l

/-- Directory part of an absolute URL: everything up to and including the
last slash of the path, or the origin followed by a slash when the URL has
no path. -/
def dirChars (l : List Char) : List Char :=
  let o := originChars l
  let p := (l.drop o.length).reverse.dropWhile (fun c => c ≠ '/')
  if p.isEmpty then o ++ ['/'] else o ++ p.reverse

/-- Simplified `urllib.parse.urljoin(base, href)` for an absolute `base`:
an address carrying a scheme marker is kept, a protocol-relative address
inherits the scheme, a root-relative address is resolved against the
origin, and any other address is resolved against the directory of the
base.  Dot-segment normalization and scheme-only references are not
modelled; no claim depends on them. -/
def urljoin (base href : String) : String :=
  if containsStr href "://" then href
  else if startsWithS href "//" then
    (match splitOnceL "://".data base.data with
     | some (pre, _) => String.mk (pre ++ [':'])
     | none => "") ++ href
  else if startsWithS href "/" then String.mk (originChars base.data) ++ href
  else if href = "" then base
  else String.mk (dirChars base.data) ++ href

/-- The hero-product handle computation of `_extract_hero_products`:
`href.split('/products/')[-1].split('?')[0]`. -/
def handleOf (href : String) : String :=
  String.mk ((afterLastOcc "/products/".data href.data).takeWhile (fun c => c ≠ '?'))

/-! ## Parsed documents (the BeautifulSoup model)

A parsed page is a forest of nodes; an element carries its tag name, the
raw value of its `class` attribute, its other attributes, and its
children.  Tag names are assumed already lower-cased by the parser. -/

/-- A node of a parsed HTML document. -/
inductive Node where
  | text (s : String)
  | elem (tag : String) (cls : String) (attrs : List (String × String)) (children : List Node)

/-- A parsed document: the forest of top-level nodes. -/
abbrev Doc := List Node

mutual

/-- All nodes of the subtree rooted at a node, in document (preorder)
order. -/
def subNodes : Node → List Node
  | .text s => [.text s]
  | .elem t c a cs => .elem t c a cs :: subForest cs

/-- All nodes of a forest, in document (preorder) order. -/
def subForest : Doc → List Node
  | [] => []
  | n :: rest => subNodes n ++ subForest rest

end

/-- Children of a node (empty for text nodes). -/
def childrenOf : Node → List Node
  | .elem _ _ _ cs => cs
  | .text _ => []

/-- Tag-name test; text nodes match no tag. -/
def tagIs (n : Node) (t : String) : Bool :=
  match n with
  | .elem t2 _ _ _ => t2 = t
  | .text _ => false

/-- Value of a non-class attribute, when present. -/
def attrOf (n : Node) (k : String) : Option String :=
  match n with
  | .elem _ _ attrs _ => lookupS k attrs
  | .text _ => none

/-- Raw value of the `class` attribute (empty when absent). -/
def classOf : Node → String
  | .elem _ c _ _ => c
  | .text _ => ""

mutual

/-- Text fragments of a node, in document order (the strings BeautifulSoup
iterates for `get_text`). -/
def textFragsN : Node → List String
  | .text s => [s]
  | .elem _ _ _ cs => textFragsF cs

/-- Text fragments of a forest, in document order. -/
def textFragsF : Doc → List String
  | [] => []
  | n :: rest => textFragsN n ++ textFragsF rest

end

/-- The stripped, non-empty text fragments of a node
(BeautifulSoup `stripped_strings`). -/
def strippedFrags (n : Node) : List String :=
  ((textFragsN n).map pyStrip).filter (fun s => s ≠ "")

/-- BeautifulSoup `get_text(strip=True)` (empty separator). -/
def getTextStripN (n : Node) : String := String.join (strippedFrags n)

/-- BeautifulSoup `get_text(separator='\n', strip=True)`. -/
def getTextSepN (n : Node) : String := String.intercalate "\n" (strippedFrags n)

/-- BeautifulSoup `get_text()` with default arguments: the raw
concatenation of all text fragments of a node. -/
def getTextRawN (n : Node) : String := String.join (textFragsN n)

/-- BeautifulSoup `get_text()` over a whole document. -/
def getTextRawF (doc : Doc) : String := String.join (textFragsF doc)

mutual

/-- Recursive-descent first match in a node, also returning the following
siblings of the match (needed for `find_next_sibling`); `rest` is the list
of nodes following `n` at its own level. -/
def findSibsN (p : Node → Bool) (n : Node) (rest : List Node) : Option (Node × List Node) :=
  if p n then some (n, rest)
  else
    match n with
    | .text _ => none
    | .elem _ _ _ cs => findSibsF p cs

/-- Recursive-descent first match in a forest, with following siblings. -/
def findSibsF (p : Node → Bool) : List Node → Option (Node × List Node)
  | [] => none
  | n :: rest =>
    match findSibsN p n rest with
    | some r => some r
    | none => findSibsF p rest

end

/-- BeautifulSoup `find` over a forest: first node of the preorder
traversal satisfying the filter. -/
def findFirstF (p : Node → Bool) (l : Doc) : Option Node :=
  (subForest l).find? p

/-- BeautifulSoup `tag.find` (descendants only, the tag itself excluded). -/
def findDesc (p : Node → Bool) (n : Node) : Option Node :=
  findFirstF p (childrenOf n)

/-- BeautifulSoup `.string`: the single text content of a tag, defined when
the tag wraps exactly one child chain that ends in one text node. -/
def nodeString : Node → Option String
  | .text s => some s
  | .elem _ _ _ [c] => nodeString c
  | .elem _ _ _ _ => none

/-! ## JSON values and Python numeric parsing (the catalog feed) -/

/-- A JSON value, as returned by `response.json()`.  Numbers are modelled
as exact rationals. -/
inductive Json where
  | null
  | bool (b : Bool)
  | num (q : ℚ)
  | str (s : String)
  | arr (xs : List Json)
  | obj (fields : List (String × Json))

/-- Python truthiness of a JSON-decoded value (`if variants:`). -/
def pyTruthy : Json → Bool
  | .null => false
  | .bool b => b
  | .num q => q ≠ 0
  | .str s => s ≠ ""
  | .arr xs => !xs.isEmpty
  | .obj fs => !fs.isEmpty

/-- Interpret a digit list as a natural number. -/
def digitsToNat (l : List Char) : Nat :=
  l.foldl (fun acc c => acc * 10 + (c.toNat - '0'.toNat)) 0

/-- Python `float(s)` on the plain decimal forms `[+-]?digits`,
`[+-]?digits.digits`, `[+-]?.digits`, `[+-]?digits.` after stripping
surrounding whitespace; exponent, underscore, infinity and nan forms are
not modelled (no claim uses them).  Returns `none` where `float` raises
`ValueError`. -/
def parseDec (s : String) : Option ℚ :=
  let l := pyStripL s.data
  let core := fun (m : List Char) =>
    let ip := m.takeWhile isDigitC
    let rest := m.drop ip.length
    match rest with
    | [] => if ip.isEmpty then none else some (mkRat (Int.ofNat (digitsToNat ip)) 1)
    | '.' :: fp =>
      if fp.all isDigitC && !(ip.isEmpty && fp.isEmpty) then
        some (mkRat (Int.ofNat (digitsToNat ip * 10 ^ fp.length + digitsToNat fp)) (10 ^ fp.length))
      else none
    | _ => none
  match l with
  | '+' :: m => core m
  | '-' :: m => (core m).map (fun q => -q)
  | m => core m

/-- Kinds of exception an entry-level extraction step can raise:
`caught` stands for ValueError and KeyError (including pydantic
ValidationError, a ValueError subclass), the kinds the feed-level handler
of `_fetch_product_catalog` catches; `uncaught` stands for TypeError and
AttributeError, which that handler does not list. -/
inductive EntryErr where
  | caught
  | uncaught
deriving DecidableEq

/-- Python `float(v)` on a JSON-decoded value: numbers and booleans
convert, strings are parsed (ValueError on failure), any other type
raises TypeError. -/
def pyFloatJ : Json → Except EntryErr ℚ
  | .num q => .ok q
  | .bool b => .ok (if b then 1 else 0)
  | .str s =>
    match parseDec s with
    | some q => .ok q
    | none => .error .caught
  | _ => .error .uncaught

/-- Field lookup on a JSON object field list (Python `dict.get`). -/
def lookupJ (fs : List (String × Json)) (k : String) : Option Json := lookupS k fs

/-- Field lookup with a default (Python `dict.get(k, d)`). -/
def lookupJD (fs : List (String × Json)) (k : String) (d : Json) : Json :=
  (lookupJ fs k).getD d

/-- The normalized product record (`app.models.Product`).  The pydantic
`HttpUrl` shape check on `image_url` and the numeric-string coercions of
pydantic validation are not modelled; no claim depends on them. -/
structure Product where
  id : Int
  title : String
  vendor : String
  product_type : String
  handle : String
  created_at : String
  price : ℚ
  sku : Option String
  image_url : Option String
deriving DecidableEq, Repr

/-- Validation of a required `int` field: the value must be present and an
integral number, else pydantic raises ValidationError (caught kind). -/
def intField (fs : List (String × Json)) (k : String) : Except EntryErr Int :=
  match lookupJ fs k with
  | some (.num q) => if q.den = 1 then .ok q.num else .error .caught
  | _ => .error .caught

/-- Validation of a required `str` field. -/
def strField (fs : List (String × Json)) (k : String) : Except EntryErr String :=
  match lookupJ fs k with
  | some (.str s) => .ok s
  | _ => .error .caught

/-- Validation of an `Optional[str]` field taken via `dict.get` (absent and
null both give None). -/
def optStrOf : Option Json → Except EntryErr (Option String)
  | none => .ok none
  | some .null => .ok none
  | some (.str s) => .ok (some s)
  | some _ => .error .caught

/-- The price line of `_fetch_product_catalog`:
`float(variants[0].get('price', 0.0)) if variants else 0.0`.
A falsy variants value yields the 0.0 default; subscripting a non-empty
dict raises KeyError (caught), subscripting other truthy non-list values
raises TypeError or AttributeError (uncaught). -/
def priceOfVariants (variants : Json) : Except EntryErr ℚ :=
  if pyTruthy variants then
    match variants with
    | .arr (v :: _) =>
      match v with
      | .obj vf =>
        match lookupJ vf "price" with
        | some pv => pyFloatJ pv
        | none => .ok 0
      | _ => .error .uncaught
    | .obj _ => .error .caught
    | _ => .error .uncaught
  else .ok 0

/-- The sku line: `variants[0].get('sku') if variants else None`. -/
def skuOfVariants (variants : Json) : Except EntryErr (Option String) :=
  if pyTruthy variants then
    match variants with
    | .arr (v :: _) =>
      match v with
      | .obj vf => optStrOf (lookupJ vf "sku")
      | _ => .error .uncaught
    | .obj _ => .error .caught
    | _ => .error .uncaught
  else .ok none

/-- The image line: `images[0].get('src') if images else None`. -/
def imageOfImages (images : Json) : Except EntryErr (Option String) :=
  if pyTruthy images then
    match images with
    | .arr (v :: _) =>
      match v with
      | .obj vf => optStrOf (lookupJ vf "src")
      | _ => .error .uncaught
    | .obj _ => .error .caught
    | _ => .error .uncaught
  else .ok none

/-- One iteration of the catalog loop of `_fetch_product_catalog`: the
variant/image extraction lines followed by construction of the pydantic
`Product`, in source order.  Entries that are not JSON objects raise
AttributeError at `product_data.get` (uncaught kind). -/
def parseEntry : Json → Except EntryErr Product
  | .obj fs => do
    let variants := lookupJD fs "variants" (.arr [])
    let images := lookupJD fs "images" (.arr [])
    let price ← priceOfVariants variants
    let sku ← skuOfVariants variants
    let image_url ← imageOfImages images
    let idv ← intField fs "id"
    let title ← strField fs "title"
    let vendor ← strField fs "vendor"
    let product_type ← strField fs "product_type"
    let handle ← strField fs "handle"
    let created_at ← strField fs "created_at"
    .ok { id := idv, title := title, vendor := vendor, product_type := product_type,
          handle := handle, created_at := created_at, price := price, sku := sku,
          image_url := image_url }
  | _ => .error .uncaught

/-- Numeric reading of a feed price value, as the specification describes
it: the value of the price field, read the way `float(...)` reads it,
where that succeeds. -/
def ratOfJsonPrice (pv : Json) : Option ℚ :=
  match pyFloatJ pv with
  | .ok q => some q
  | .error _ => none

/-- The price the specification assigns to a catalog entry: the price
field of the entry's first variant, defaulting to 0.0 when the entry has
no variants (stated for comparison with the source's extraction). -/
def specFirstVariantPrice (e : Json) : Option ℚ :=
  match e with
  | .obj fs =>
    match lookupJ fs "variants" with
    | some (.arr (v :: _)) =>
      (match v with
       | .obj vf =>
         match lookupJ vf "price" with
         | some pv => ratOfJsonPrice pv
         | none => some 0
       | _ => none)
    | _ => some 0
  | _ => none

/-- The catalog loop: products accumulated until the first entry whose
extraction raises, together with that exception when one occurred.  The
single feed-level `try` of the source wraps the whole loop, so the raise
aborts the remaining entries. -/
def processEntries : List Json → List Product × Option EntryErr
  | [] => ([], none)
  | e :: rest =>
    match parseEntry e with
    | .ok p =>
      let (ps, err) := processEntries rest
      (p :: ps, err)
    | .error k => ([], some k)

/-! ## The HTTP world and the page fetcher -/

/-- A received HTTP response: final status code, the JSON parse of the body
(`none` where `response.json()` raises ValueError), and the document tree
BeautifulSoup builds from the body text. -/
structure Resp where
  status : Nat
  json : Option Json
  doc : Doc

/-- The network, as observed through the shared client of one run: each URL
yields either a response or a connection failure (httpx.RequestError,
modelled as `none`). -/
structure World where
  get : String → Option Resp

/-- httpx `response.raise_for_status()` succeeds exactly on 2xx codes. -/
def is2xx (st : Nat) : Bool := 200 ≤ st && st < 300

/-- Exceptions that escape a scraper component into `run`:
`httpStatusError` is the httpx.HTTPStatusError missing from the catch list
of `_fetch_product_catalog`; `otherException` covers the TypeError and
AttributeError escapes.  The `finally` of `run` closes the client on these
paths too; the error value models the exception propagating to the caller
of `run`. -/
inductive PyErr where
  | httpStatusError
  | otherException
deriving DecidableEq, Repr

/-- `_get_soup`: fetch a URL and return its document tree; both
httpx.RequestError and httpx.HTTPStatusError are caught here and converted
to an absent result. -/
def getSoup (w : World) (url : String) : Option Doc :=
  match w.get url with
  | none => none
  | some r => if is2xx r.status then some r.doc else none

/-- `_fetch_and_format_page_content`: empty address or failed fetch or
missing `<main>` region gives an absent result, otherwise the text of the
first `<main>` element with one line break per text fragment and newline
runs collapsed. -/
def fetchPage (w : World) (url : String) : Option String :=
  if url = "" then none
  else
    match getSoup w url with
    | none => none
    | some doc =>
      match findFirstF (fun n => tagIs n "main") doc with
      | none => none
      | some m => some (cleanText (getTextSepN m))

/-- `_fetch_product_catalog`: a connection failure or a non-JSON body is
caught and leaves the catalog empty; a non-2xx status raises
httpx.HTTPStatusError, which the `except` clause does not list; entry
extraction errors of the caught kinds abort the loop but are swallowed at
the feed boundary, keeping the products accumulated so far. -/
def fetchCatalog (w : World) (base : String) : Except PyErr (List Product) :=
  match w.get (base ++ "/products.json") with
  | none => .ok []
  | some r =>
    if is2xx r.status then
      match r.json with
      | none => .ok []
      | some j =>
        match j with
        | .obj fs =>
          match lookupJD fs "products" (.arr []) with
          | .arr es =>
            match processEntries es with
            | (ps, none) => .ok ps
            | (ps, some .caught) => .ok ps
            | (_, some .uncaught) => .error .otherException
          | _ => .error .otherException
        | _ => .error .otherException
    else .error .httpStatusError

/-! ## Phone-number matching (`_extract_contact_details`, line 220)

The source pattern is
`(\+?\d{1,3}[-.\s]?)?(\(?\d{3}\)?[-.\s]?)?[\d\s.-]{7,10}`.
The matcher below enumerates the backtracking alternatives of each piece
in regex preference order (greedy, optional pieces tried present first)
and takes the first full match, which is exactly the Python semantics.
Crucially, `re.findall` on a pattern with capture groups returns only the
tuple of group captures, never the full match text; the scan below returns
the two group captures accordingly. -/

/-- Separator class `[-.\s]`. -/
def isSepC (c : Char) : Bool := c = '-' || c = '.' || isSpaceC c

/-- Body class `[\d\s.-]`. -/
def isClsC (c : Char) : Bool := isDigitC c || isSepC c

/-- Alternatives of a trailing `[-.\s]?` after a partial capture `acc`:
consume one separator (preferred) or nothing. -/
def sepOpt (acc : List Char) : List Char → List (List Char × List Char)
  | [] => [(acc, [])]
  | c :: r => if isSepC c then [(acc ++ [c], r), (acc, c :: r)] else [(acc, c :: r)]

/-- Alternatives of `\d{1,3}` prefixed by `pre`: one to three digits,
longest first. -/
def digits13 (pre : List Char) : List Char → List (List Char × List Char)
  | [] => []
  | d1 :: r1 =>
    if isDigitC d1 then
      match r1 with
      | [] => [(pre ++ [d1], [])]
      | d2 :: r2 =>
        if isDigitC d2 then
          match r2 with
          | [] => [(pre ++ [d1, d2], []), (pre ++ [d1], r1)]
          | d3 :: r3 =>
            if isDigitC d3 then
              [(pre ++ [d1, d2, d3], r3), (pre ++ [d1, d2], r2), (pre ++ [d1], r1)]
            else [(pre ++ [d1, d2], r2), (pre ++ [d1], r1)]
        else [(pre ++ [d1], r1)]
    else []

/-- Exactly `\d{3}` prefixed by `pre`. -/
def digits3 (pre : List Char) : List Char → Option (List Char × List Char)
  | d1 :: d2 :: d3 :: r =>
    if isDigitC d1 && isDigitC d2 && isDigitC d3 then some (pre ++ [d1, d2, d3], r)
    else none
  | _ => none

/-- Alternatives of a `\)?` after a partial capture. -/
def parenClose (acc : List Char) : List Char → List (List Char × List Char)
  | ')' :: r => [(acc ++ [')'], r), (acc, ')' :: r)]
  | l => [(acc, l)]

/-- Alternatives of group 1, `\+?\d{1,3}[-.\s]?`, in preference order. -/
def g1Alts (l : List Char) : List (List Char × List Char) :=
  (match l with
   | '+' :: r => (digits13 ['+'] r).flatMap (fun pr => sepOpt pr.1 pr.2)
   | _ => []) ++
  (digits13 [] l).flatMap (fun pr => sepOpt pr.1 pr.2)

/-- Alternatives of the optional group 1, `(\+?\d{1,3}[-.\s]?)?`: matching
the group is preferred, skipping it captures the empty string (what
`re.findall` reports for an unmatched group). -/
def g1Seq (l : List Char) : List (List Char × List Char) := g1Alts l ++ [([], l)]

/-- Alternatives of group 2, `\(?\d{3}\)?[-.\s]?`, in preference order. -/
def g2Alts (l : List Char) : List (List Char × List Char) :=
  (match l with
   | '(' :: r =>
     match digits3 ['('] r with
     | some pr => (parenClose pr.1 pr.2).flatMap (fun pq => sepOpt pq.1 pq.2)
     | none => []
   | _ => []) ++
  (match digits3 [] l with
   | some pr => (parenClose pr.1 pr.2).flatMap (fun pq => sepOpt pq.1 pq.2)
   | none => [])

/-- Alternatives of the optional group 2. -/
def g2Seq (l : List Char) : List (List Char × List Char) := g2Alts l ++ [([], l)]

/-- Alternatives of `[\d\s.-]{7,10}`: the remainders after consuming ten
down to seven body characters (greedy). -/
def clsAlts (l : List Char) : List (List Char) :=
  let n := min (l.takeWhile isClsC).length 10
  if n < 7 then [] else (List.range (n - 6)).map (fun i => l.drop (n - i))

/-- First success of `f` over a list of alternatives. -/
def firstSome {α β : Type} (f : α → Option β) : List α → Option β
  | [] => none
  | a :: rest =>
    match f a with
    | some b => some b
    | none => firstSome f rest

/-- Attempt of the full phone pattern at the head of `l`, returning the two
group captures and the remainder after the whole match. -/
def matchPhoneAt (l : List Char) : Option (List Char × List Char × List Char) :=
  firstSome
    (fun g1 =>
      firstSome
        (fun g2 => firstSome (fun rest => some (g1.1, g2.1, rest)) (clsAlts g2.2))
        (g2Seq g1.2))
    (g1Seq l)

/-- The `re.findall` scan for the phone pattern: try a match at every
position left to right, continuing after each match.  The body consumes at
least seven characters per match, so `l.length` fuel always suffices. -/
def phoneScanAux : Nat → List Char → List (List Char × List Char)
  | 0, _ => []
  | _ + 1, [] => []
  | fuel + 1, c :: rest =>
    match matchPhoneAt (c :: rest) with
    | some (a, b, r) => (a, b) :: phoneScanAux fuel r
    | none => phoneScanAux fuel rest

/-- `re.findall(phone_pattern, text)`: the list of group-capture pairs. -/
def phoneScan (l : List Char) : List (List Char × List Char) := phoneScanAux l.length l

/-- The cleanup comprehension of `_extract_contact_details`: join the two
group captures of each tuple, keep the candidate only when its digits
number at least ten, and reduce it to its digits. -/
def cleanedPhoneL (l : List Char) : List String :=
  ((phoneScan l).filter (fun p => 10 ≤ countDig (p.1 ++ p.2))).map
    (fun p => String.mk (digitsOnly (p.1 ++ p.2)))

/-- The phone-number side of `_extract_contact_details` on the flattened
page text: cleaned candidates, deduplicated. -/
def extractPhones (s : String) : List String := dedupFirst (cleanedPhoneL s.data)

/-! ## Email matching (`_extract_contact_details`, line 216)

Pattern `[a-zA-Z0-9._%+-]+@[a-zA-Z0-9.-]+\.[a-zA-Z]{2,}`; it has no
capture groups, so `re.findall` returns full match texts. -/

/-- Local-part class `[a-zA-Z0-9._%+-]`. -/
def isLocalC (c : Char) : Bool :=
  isAlnumC c || c = '.' || c = '_' || c = '%' || c = '+' || c = '-'

/-- Domain class `[a-zA-Z0-9.-]`. -/
def isDomC (c : Char) : Bool := isAlnumC c || c = '.' || c = '-'

/-- Greedy alternatives of a `cls+` piece: the non-empty splits of the
maximal run, longest first. -/
def plusSplits (p : Char → Bool) (l : List Char) : List (List Char × List Char) :=
  let n := (l.takeWhile p).length
  (List.range n).map (fun i => (l.take (n - i), l.drop (n - i)))

/-- Attempt of the email pattern at the head of `l`, returning the full
match text and the remainder. -/
def matchEmailAt (l : List Char) : Option (List Char × List Char) :=
  firstSome
    (fun loc =>
      match loc.2 with
      | '@' :: r2 =>
        firstSome
          (fun dom =>
            match dom.2 with
            | '.' :: r4 =>
              let t := r4.takeWhile isAlphaC
              if 2 ≤ t.length then
                some (loc.1 ++ '@' :: dom.1 ++ '.' :: t, r4.drop t.length)
              else none
            | _ => none)
          (plusSplits isDomC r2)
      | _ => none)
    (plusSplits isLocalC l)

/-- The `re.findall` scan for the email pattern.  Every match consumes at
least one character, so `l.length` fuel always suffices. -/
def emailScanAux : Nat → List Char → List String
  | 0, _ => []
  | _ + 1, [] => []
  | fuel + 1, c :: rest =>
    match matchEmailAt (c :: rest) with
    | some (m, r) => String.mk m :: emailScanAux fuel r
    | none => emailScanAux fuel rest

/-- The email side of `_extract_contact_details`: matches over the
flattened page text, deduplicated. -/
def extractEmails (s : String) : List String := dedupFirst (emailScanAux s.data.length s.data)

/-- `_extract_contact_details`: flatten the whole page to text with
`soup.get_text()`, then extract emails and phone numbers. -/
def extractContact (doc : Doc) : List String × List String :=
  let text := getTextRawF doc
  (extractEmails text, extractPhones text)

/-! ## The FAQ extractor (`_scrape_faqs`) -/

/-- Candidate container filter of strategy 1, the CSS selector
`details, div[class*="faq"], div[class*="accordion"], div[class*="item"]`
(attribute substring match on the raw class value). -/
def isAccordionItem (n : Node) : Bool :=
  tagIs n "details" ||
  (tagIs n "div" &&
    (containsStr (classOf n) "faq" || containsStr (classOf n) "accordion" ||
     containsStr (classOf n) "item"))

/-- Question filter of strategy 1: `item.find(['h2','h3','h4','strong','b'])`. -/
def isQuestionTag (n : Node) : Bool :=
  tagIs n "h2" || tagIs n "h3" || tagIs n "h4" || tagIs n "strong" || tagIs n "b"

/-- Fallback question filter: `item.find(role='button')`. -/
def hasRoleButton (n : Node) : Bool := attrOf n "role" = some "button"

/-- Case-insensitive containment of any of the answer class words,
the filter `class_=re.compile(r'(content|answer|body|panel)', re.I)`.
The words are letter-only, so a search over the raw class value is
equivalent to BeautifulSoup matching each class token. -/
def isAnswerClassed (n : Node) : Bool :=
  (tagIs n "div" || tagIs n "p") &&
  (containsStr (lowerS (classOf n)) "content" || containsStr (lowerS (classOf n)) "answer" ||
   containsStr (lowerS (classOf n)) "body" || containsStr (lowerS (classOf n)) "panel")

/-- Sibling filter of the answer fallback, `find_next_sibling(['div','p'])`. -/
def isDivOrP (n : Node) : Bool := tagIs n "div" || tagIs n "p"

/-- The question search of strategy 1:
`item.find(['h2','h3','h4','strong','b']) or item.find(role='button')`,
kept together with the following siblings of the found element. -/
def questionOfItem (item : Node) : Option (Node × List Node) :=
  match findSibsF isQuestionTag (childrenOf item) with
  | some r => some r
  | none => findSibsF hasRoleButton (childrenOf item)

/-- The answer search of strategy 1: the explicitly classed descendant,
else the next div/p sibling of the question element. -/
def answerOfItem (item : Node) (sibs : List Node) : Option Node :=
  match findDesc isAnswerClassed item with
  | some a => some a
  | none => sibs.find? isDivOrP

/-- The strategy-1 body for one candidate item: locate a question element,
locate an answer element, and keep the pair when both texts are non-empty
and the question is not the unfilled template placeholder. -/
def pairOfItem (item : Node) : Option (String × String) :=
  match questionOfItem item with
  | none => none
  | some (q, sibs) =>
    match answerOfItem item sibs with
    | none => none
    | some a =>
      let question := getTextStripN q
      let answer := getTextSepN a
      if question ≠ "" && answer ≠ "" &&
         !containsStr (lowerS question) "your-question-here" then
        some (question, answer)
      else none

/-- Strategy 1 of `_scrape_faqs`, the accordion hunter. -/
def accordionPairs (doc : Doc) : List (String × String) :=
  ((subForest doc).filter isAccordionItem).filterMap pairOfItem

/-- The main content area of strategy 2: `faq_soup.main or faq_soup.body`;
absent on a document with neither element, in which case the source
dereferences None and raises AttributeError. -/
def mainArea (doc : Doc) : Option Node :=
  match findFirstF (fun n => tagIs n "main") doc with
  | some m => some m
  | none => findFirstF (fun n => tagIs n "body") doc

/-- Link filter of strategy 2:
`find_all('a', href=re.compile(r'(faq|question|/a/)'))`. -/
def isFaqLink (n : Node) : Bool :=
  tagIs n "a" &&
  (match attrOf n "href" with
   | some h => containsStr h "faq" || containsStr h "question" || containsStr h "/a/"
   | none => false)

/-- Broadened link filter of strategy 2: any link with an href whose
visible text contains a question mark. -/
def isQmarkLink (n : Node) : Bool :=
  tagIs n "a" && (attrOf n "href").isSome && containsStr (getTextRawN n) "?"

/-- The strategy-2 body for one candidate link: the stripped link text
(required non-empty and longer than five characters) paired with the
linked page body fetched through `_fetch_and_format_page_content`; an
absent or empty body drops the link. -/
def linkedPairOf (w : World) (base : String) (ln : Node) : Option (String × String) :=
  let qt := getTextStripN ln
  if qt ≠ "" && 5 < qt.length then
    match fetchPage w (urljoin base ((attrOf ln "href").getD "")) with
    | some ans => if ans ≠ "" then some (qt, ans) else none
    | none => none
  else none

/-- Strategy 2 over the chosen main area: candidate links, each turned
into a pair by `linkedPairOf`. -/
def linkedPairs (w : World) (base : String) (area : Node) : List (String × String) :=
  let descs := subForest (childrenOf area)
  let qlinks :=
    let specific := descs.filter isFaqLink
    if specific.isEmpty then descs.filter isQmarkLink else specific
  qlinks.filterMap (linkedPairOf w base)

/-- The fixed placeholder question of the fallback tier. -/
def generalFaqQuestion : String := "General FAQ Page Content"

/-- `_scrape_faqs`: the three-tier fallback chain.  A failed page fetch
yields no pairs; a tier's output is returned exactly when non-empty; the
fallback tier wraps a truthy page body into one fixed-question pair.  On a
page whose document has neither `<main>` nor `<body>`, strategy 2
dereferences None (`main_area.find_all`) and the AttributeError escapes. -/
def scrapeFaqs (w : World) (base : String) (faqUrl : String) :
    Except PyErr (List (String × String)) :=
  match getSoup w faqUrl with
  | none => .ok []
  | some doc =>
    let t1 := accordionPairs doc
    if !t1.isEmpty then .ok t1
    else
      match mainArea doc with
      | none => .error .otherException
      | some area =>
        let t2 := linkedPairs w base area
        if !t2.isEmpty then .ok t2
        else
          match fetchPage w faqUrl with
          | some s => if s ≠ "" then .ok [(generalFaqQuestion, s)] else .ok []
          | none => .ok []

/-! ## Social handles, link resolution, hero products -/

/-- The fixed social-network keyword list, in source order. -/
def socialKeywords : List String :=
  ["instagram", "facebook", "twitter", "pinterest", "youtube", "tiktok"]

/-- Link-with-href filter (`find_all('a', href=True)`). -/
def isAHref (n : Node) : Bool := tagIs n "a" && (attrOf n "href").isSome

/-- `_extract_social_handles`: for every link of the page in document
order, the first keyword contained in the lower-cased address claims the
link; a later link with the same keyword overwrites the mapping. -/
def extractSocial (base : String) (doc : Doc) : List (String × String) :=
  ((subForest doc).filter isAHref).foldl
    (fun m n =>
      let href := (attrOf n "href").getD ""
      match socialKeywords.find? (fun kw => containsStr (lowerS href) kw) with
      | some kw => upsert kw (urljoin base href) m
      | none => m)
    []

/-- The fixed keyword-to-label vocabulary of `_extract_links_and_policies`,
in source (dict insertion) order. -/
def linkMap : List (String × String) :=
  [("privacy", "Privacy Policy"), ("refund", "Refund Policy"), ("return", "Return Policy"),
   ("terms", "Terms of Service"), ("shipping", "Shipping Policy"), ("faq", "FAQs"),
   ("contact", "Contact Us"), ("about", "About Us"), ("track", "Order Tracking"),
   ("blog", "Blogs")]

/-- The per-keyword link search
`soup.find('a', text=re.compile(rf'\b{kw}\b', re.IGNORECASE), href=True)`:
the first link of the preorder traversal carrying an href whose `.string`
content matches the word-bounded keyword. -/
def findLinkTag (doc : Doc) (kw : String) : Option Node :=
  findFirstF
    (fun n =>
      tagIs n "a" && (attrOf n "href").isSome &&
      (match nodeString n with
       | some s => wordSearch kw.data s.data
       | none => false))
    doc

/-- One step of the `found_links` accumulation: a matched label adds its
resolved absolute address. -/
def foundStep (base : String) (doc : Doc) (acc : List (String × String))
    (kn : String × String) : List (String × String) :=
  match findLinkTag doc kn.1 with
  | some n => acc ++ [(kn.2, urljoin base ((attrOf n "href").getD ""))]
  | none => acc

/-- The `found_links` accumulation loop: one resolved absolute address per
matched label, in vocabulary order. -/
def foundLinks (base : String) (doc : Doc) : List (String × String) :=
  linkMap.foldl (foundStep base doc) []

/-- A policy record (`app.models.Policy`). -/
structure Policy where
  url : Option String
  content : Option String
deriving DecidableEq, Repr

/-- The contact block (`app.models.ContactDetails`). -/
structure ContactDetails where
  emails : List String := []
  phone_numbers : List String := []
deriving DecidableEq, Repr

/-- The aggregate insight record (`app.models.BrandInsights`); mappings are
association lists in insertion order, FAQ pairs are (question, answer). -/
structure BrandInsights where
  store_url : String
  product_catalog : List Product := []
  hero_products : List String := []
  policies : List (String × Policy) := []
  faqs : List (String × String) := []
  social_handles : List (String × String) := []
  contact_details : ContactDetails := {}
  brand_context : Option String := none
  important_links : List (String × String) := []
deriving DecidableEq, Repr

/-- The classification loop of `_extract_links_and_policies` over the
resolved labels: each label's page body is fetched, then About Us feeds the
brand narrative, labels containing Policy or Service become policy entries,
FAQs dispatches to the FAQ extractor (whose escaping exception propagates),
and every other label is recorded under important links. -/
def applyLinks (w : World) (base : String) :
    List (String × String) → BrandInsights → Except PyErr BrandInsights
  | [], ins => .ok ins
  | (name, url) :: rest, ins =>
    let content := fetchPage w url
    if name = "About Us" then
      applyLinks w base rest
        { ins with brand_context := content,
                   important_links := upsert name url ins.important_links }
    else if containsStr name "Policy" || containsStr name "Service" then
      applyLinks w base rest
        { ins with policies := upsert name ⟨some url, content⟩ ins.policies }
    else if name = "FAQs" then
      match scrapeFaqs w base url with
      | .error e => .error e
      | .ok pairs =>
        applyLinks w base rest
          { ins with faqs := pairs,
                     important_links := upsert name url ins.important_links }
    else
      applyLinks w base rest { ins with important_links := upsert name url ins.important_links }

/-- `_extract_links_and_policies`: resolve the vocabulary against the
homepage, then classify each resolved label. -/
def extractLinksAndPolicies (w : World) (base : String) (doc : Doc) (ins : BrandInsights) :
    Except PyErr BrandInsights :=
  applyLinks w base (foundLinks base doc) ins

/-- The links considered by `_extract_hero_products`: the CSS selection
`main a, section a`, every link inside a `main` or `section` element. -/
def heroATags (doc : Doc) : List Node :=
  ((subForest doc).filter (fun n => tagIs n "main" || tagIs n "section")).flatMap
    (fun n => (subForest (childrenOf n)).filter (fun m => tagIs m "a"))

/-- One step of the hero-handle accumulation: a considered link whose
address contains `/products/` contributes the remainder after the last
such marker, truncated at the first question mark, when non-empty. -/
def heroStep (s : List String) (n : Node) : List String :=
  if containsStr ((attrOf n "href").getD "") "/products/" then
    if handleOf ((attrOf n "href").getD "") ≠ "" then
      insertNew s (handleOf ((attrOf n "href").getD ""))
    else s
  else s

/-- `_extract_hero_products`: the handle set accumulated over the
considered links (insertion order; the Python `list(set(...))` order is
unspecified, membership is what the claims use). -/
def heroHandles (doc : Doc) : List String := (heroATags doc).foldl heroStep []

/-! ## The orchestrator (`Scraper.run`) -/

/-- `Scraper.run`: catalog first, then the homepage-derived extractions
when the homepage is reachable; the record built so far is returned, and
an exception escaping any stage propagates to the caller (the shared
client is closed by `finally` on every path). -/
def runScraper (w : World) (rawUrl : String) : Except PyErr BrandInsights :=
  match fetchCatalog w (normalizeBase rawUrl) with
  | .error e => .error e
  | .ok products =>
    match getSoup w (normalizeBase rawUrl) with
    | none => .ok { store_url := normalizeBase rawUrl, product_catalog := products }
    | some doc =>
      match extractLinksAndPolicies w (normalizeBase rawUrl) doc
          { store_url := normalizeBase rawUrl, product_catalog := products,
            social_handles := extractSocial (normalizeBase rawUrl) doc,
            contact_details := ⟨(extractContact doc).1, (extractContact doc).2⟩ } with
      | .error e => .error e
      | .ok ins2 => .ok { ins2 with hero_products := heroHandles doc }

deriving instance DecidableEq for Except

/-! ## Spec-side comparison definition for the hero handle -/

/-- The handle described by the specification: the single path segment
immediately following `/products/`, with any trailing query string
stripped (stated for comparison with the source's `handleOf`). -/
def specSingleSegmentHandle (href : String) : String :=
  String.mk ((afterLastOcc "/products/".data href.data).takeWhile
    (fun c => c ≠ '/' && c ≠ '?'))

/-! ## Concrete fixtures used by the claim theorems and witnesses -/

/-- World for claim C1: the catalog endpoint answers with status 404, and
the homepage is reachable and carries extractable content. -/
def wC1 : World :=
  ⟨fun u =>
    if u = "https://shop.example/products.json" then some ⟨404, none, []⟩
    else if u = "https://shop.example" then
      some ⟨200, none,
        [Node.elem "body" "" []
          [Node.elem "a" "" [("href", "https://instagram.com/shop")] [Node.text "Insta"]]]⟩
    else none⟩

/-- A catalog entry whose extraction raises inside pydantic validation: the
required `title` field is missing. -/
def badEntryC2 : Json := .obj [("id", .num 1)]

/-- A fully well-formed, variant-less catalog entry. -/
def goodEntryC2 : Json :=
  .obj [("id", .num 2), ("title", .str "Tee"), ("vendor", .str "V"),
        ("product_type", .str "Shirt"), ("handle", .str "tee"), ("created_at", .str "2024")]

/-- The product `goodEntryC2` maps to. -/
def goodProdC2 : Product :=
  ⟨2, "Tee", "V", "Shirt", "tee", "2024", 0, none, none⟩

/-- A feed whose first entry is malformed and whose second is well-formed. -/
def feedC2 : Json := .obj [("products", .arr [badEntryC2, goodEntryC2])]

/-- World serving `feedC2` from the catalog endpoint. -/
def wFeedC2 : World :=
  ⟨fun u =>
    if u = "https://c2.example/products.json" then some ⟨200, some feedC2, []⟩ else none⟩

/-- World for the C2 witness: connection failure everywhere. -/
def wConnC2 : World := ⟨fun _ => none⟩

/-- World for the C2 witness: the catalog endpoint answers 200 with a body
that is not JSON. -/
def wJsonC2 : World :=
  ⟨fun u => if u = "https://c2.example/products.json" then some ⟨200, none, []⟩ else none⟩

/-- FAQ page document for C3/C9: one accordion item with a heading
question and a classed answer. -/
def faqDocC3 : Doc :=
  [.elem "body" "" []
    [.elem "details" "" []
      [.elem "h3" "" [] [.text "What is this?"],
       .elem "div" "answer" [] [.text "A shop."]]]]

/-- World serving `faqDocC3`. -/
def wFaqC3 : World :=
  ⟨fun u => if u = "https://s.example/pages/faq" then some ⟨200, none, faqDocC3⟩ else none⟩

/-- Homepage document for C4: its flattened text contains a separated run
of ten digits. -/
def docC4 : Doc := [.elem "body" "" [] [.text "Call 123-456-7890 now"]]

/-- Page document for C5: the main region's text holds a run of exactly
three newline characters, that is, a run of exactly two blank lines. -/
def docC5 : Doc := [.elem "main" "" [] [.text "a\n\n\nb"]]

/-- World serving `docC5`. -/
def wC5 : World :=
  ⟨fun u => if u = "https://s.example/p" then some ⟨200, none, docC5⟩ else none⟩

/-- The main element of `docC5`. -/
def mainC5 : Node := .elem "main" "" [] [.text "a\n\n\nb"]

/-- Homepage document for C6: a featured link whose address continues past
the product handle with a further path segment. -/
def docC6 : Doc :=
  [.elem "main" "" [] [.elem "a" "" [("href", "/products/shoe/extra")] [.text "x"]]]

/-- Homepage document for C8: one link whose visible text contains the
keyword `privacy` with word boundaries, but whose text is split over a
nested element, so the link's `.string` is None. -/
def docC8 : Doc :=
  [.elem "body" "" []
    [.elem "a" "" [("href", "/pages/privacy")]
      [.elem "b" "" [] [.text "Privacy"], .text " Policy"]]]

/-- The link of `docC8`. -/
def linkC8 : Node :=
  .elem "a" "" [("href", "/pages/privacy")] [.elem "b" "" [] [.text "Privacy"], .text " Policy"]

/-- Homepage document for the C8 witness: a link whose single text child
matches the keyword. -/
def docC8w : Doc :=
  [.elem "body" "" [] [.elem "a" "" [("href", "/pages/privacy")] [.text "Privacy Policy"]]]

/-- Catalog entry for C7: the first variant carries a negative price. -/
def entryC7 : Json :=
  .obj [("id", .num 3), ("title", .str "T"), ("vendor", .str "V"),
        ("product_type", .str "P"), ("handle", .str "h"), ("created_at", .str "c"),
        ("variants", .arr [.obj [("price", .str "-5.00")]])]

/-- The product `entryC7` maps to. -/
def prodC7 : Product := ⟨3, "T", "V", "P", "h", "c", -5, none, none⟩

/-- World serving a feed holding only `entryC7`. -/
def wFeedC7 : World :=
  ⟨fun u =>
    if u = "https://c7.example/products.json" then
      some ⟨200, some (.obj [("products", .arr [entryC7])]), []⟩
    else none⟩

/-- Catalog entry for the C7 witness: first variant priced 4.50. -/
def entryC7w : Json :=
  .obj [("id", .num 4), ("title", .str "T"), ("vendor", .str "V"),
        ("product_type", .str "P"), ("handle", .str "h"), ("created_at", .str "c"),
        ("variants", .arr [.obj [("price", .str "4.50")]])]

/-- The product `entryC7w` maps to. -/
def prodC7w : Product := ⟨4, "T", "V", "P", "h", "c", mkRat 9 2, none, none⟩

/-- World for the C10 witness: every fetch is a connection failure. -/
def wNoneC10 : World := ⟨fun _ => none⟩

/-- The record `runScraper` returns against `wNoneC10`. -/
def recC10 : BrandInsights := { store_url := "https://example.com" }

/-! ## Supporting lemmas -/

theorem take2_shape {l : List Char} (h : l.take 2 = ['\n', '\n']) :
    ∃ t, l = '\n' :: '\n' :: t := by
  cases l with
  | nil => simp at h
  | cons a t =>
    cases t with
    | nil => simp at h
    | cons b t2 =>
      simp [List.take] at h
      exact ⟨t2, by rw [h.1, h.2]⟩

theorem collapseNL_take2 (l : List Char) : (collapseNL l).take 2 = l.take 2 := by
  induction l using collapseNL.induct with
  | case1 => rfl
  | case2 c rest h ih =>
    rw [Bool.and_eq_true, decide_eq_true_eq, decide_eq_true_eq] at h
    obtain ⟨hc, ht⟩ := h
    obtain ⟨t, hrest⟩ := take2_shape ht
    rw [collapseNL, if_pos (by simp [hc, ht]), ih, hc, hrest]
    rfl
  | case3 c rest h ih =>
    rw [collapseNL, if_neg (by simp [h])]
    cases rest with
    | nil => rfl
    | cons a t =>
      have h1 : (collapseNL (a :: t)).take 1 = (a :: t).take 1 := by
        rw [show (1 : Nat) = min 1 2 by rfl, ← List.take_take, ih, List.take_take]
      show c :: (collapseNL (a :: t)).take 1 = c :: (a :: t).take 1
      rw [h1]

theorem collapseNL_no3 (l : List Char) : hasNL3 (collapseNL l) = false := by
  induction l using collapseNL.induct with
  | case1 => rfl
  | case2 c rest h ih =>
    rw [collapseNL, if_pos (by simpa using h)]
    exact ih
  | case3 c rest h ih =>
    rw [collapseNL, if_neg (by simp [h])]
    rw [hasNL3, ih, Bool.or_false, Bool.and_eq_false_iff]
    by_cases hc : c = '\n'
    · right
      rw [collapseNL_take2]
      simp only [hc, decide_eq_true_eq] at h ⊢
      simpa using fun hh => h hh
    · left
      simp [hc]

theorem collapseNL_id (l : List Char) (h : hasNL3 l = false) : collapseNL l = l := by
  induction l with
  | nil => rfl
  | cons c rest ih =>
    rw [hasNL3, Bool.or_eq_false_iff] at h
    rw [collapseNL, if_neg (by simp [h.1]), ih h.2]

theorem pairOfItem_nonempty {item : Node} {q a : String}
    (h : pairOfItem item = some (q, a)) : q ≠ "" ∧ a ≠ "" := by
  unfold pairOfItem at h
  cases hq : questionOfItem item with
  | none => rw [hq] at h; exact absurd h (by simp)
  | some r =>
    rw [hq] at h
    obtain ⟨qn, sibs⟩ := r
    dsimp only at h
    cases ha : answerOfItem item sibs with
    | none => rw [ha] at h; exact absurd h (by simp)
    | some an =>
      rw [ha] at h
      dsimp only at h
      split at h
      · rename_i cond
        simp only [Bool.and_eq_true, decide_eq_true_eq] at cond
        rw [Option.some_inj, Prod.mk.injEq] at h
        rw [← h.1, ← h.2]
        exact ⟨cond.1.1, cond.1.2⟩
      · exact absurd h (by simp)

theorem accordionPairs_nonempty {doc : Doc} {q a : String}
    (h : (q, a) ∈ accordionPairs doc) : q ≠ "" ∧ a ≠ "" := by
  unfold accordionPairs at h
  rw [List.mem_filterMap] at h
  obtain ⟨item, _, hp⟩ := h
  exact pairOfItem_nonempty hp

theorem linkedPairOf_nonempty {w : World} {base : String} {ln : Node} {q a : String}
    (h : linkedPairOf w base ln = some (q, a)) : q ≠ "" ∧ a ≠ "" := by
  unfold linkedPairOf at h
  dsimp only at h
  split at h
  · rename_i cond
    simp only [Bool.and_eq_true, decide_eq_true_eq] at cond
    cases hf : fetchPage w (urljoin base ((attrOf ln "href").getD "")) with
    | none => rw [hf] at h; exact absurd h (by simp)
    | some ans =>
      rw [hf] at h
      dsimp only at h
      split at h
      · rename_i hans
        rw [Option.some_inj, Prod.mk.injEq] at h
        rw [← h.1, ← h.2]
        exact ⟨cond.1, hans⟩
      · exact absurd h (by simp)
  · exact absurd h (by simp)

theorem linkedPairs_nonempty {w : World} {base : String} {area : Node} {q a : String}
    (h : (q, a) ∈ linkedPairs w base area) : q ≠ "" ∧ a ≠ "" := by
  unfold linkedPairs at h
  rw [List.mem_filterMap] at h
  obtain ⟨ln, _, hp⟩ := h
  exact linkedPairOf_nonempty hp

theorem countDig_append (a b : List Char) : countDig (a ++ b) = countDig a + countDig b := by
  simp [countDig, digitsOnly, List.filter_append]

theorem sepC_not_digit {c : Char} (h : isSepC c = true) : isDigitC c = false := by
  simp only [isSepC, isSpaceC, Bool.or_eq_true, decide_eq_true_eq] at h
  obtain (h | h) | (((((h | h) | h) | h) | h) | h) := h <;> subst h <;> decide

theorem mem_sepOpt {acc l : List Char} {pr : List Char × List Char}
    (hm : pr ∈ sepOpt acc l) : countDig pr.1 = countDig acc := by
  unfold sepOpt at hm
  split at hm
  · rw [List.mem_singleton] at hm
    rw [hm]
  · rename_i c r
    split at hm
    · rename_i hsep
      simp only [List.mem_cons, List.not_mem_nil, or_false] at hm
      rcases hm with hm | hm
      · rw [hm, countDig_append]
        simp [countDig, digitsOnly, sepC_not_digit hsep]
      · rw [hm]
    · rw [List.mem_singleton] at hm
      rw [hm]

theorem mem_digits13 {pre l : List Char} {pr : List Char × List Char}
    (hm : pr ∈ digits13 pre l) : countDig pr.1 ≤ countDig pre + 3 := by
  rcases l with _ | ⟨d1, _ | ⟨d2, _ | ⟨d3, r3⟩⟩⟩
  · simp [digits13] at hm
  · simp only [digits13] at hm
    split_ifs at hm with h1
    · rw [List.mem_singleton] at hm
      rw [hm, countDig_append]
      simp [countDig, digitsOnly, h1]
    · simp at hm
  · simp only [digits13] at hm
    split_ifs at hm with h1 h2
    · simp only [List.mem_cons, List.not_mem_nil, or_false] at hm
      rcases hm with hm | hm <;>
        (rw [hm, countDig_append]; simp [countDig, digitsOnly, h1, h2]; try omega)
    · rw [List.mem_singleton] at hm
      rw [hm, countDig_append]
      simp [countDig, digitsOnly, h1]
    · simp at hm
  · simp only [digits13] at hm
    split_ifs at hm with h1 h2 h3
    · simp only [List.mem_cons, List.not_mem_nil, or_false] at hm
      rcases hm with hm | hm | hm <;>
        (rw [hm, countDig_append]; simp [countDig, digitsOnly, h1, h2, h3]; try omega)
    · simp only [List.mem_cons, List.not_mem_nil, or_false] at hm
      rcases hm with hm | hm <;>
        (rw [hm, countDig_append]; simp [countDig, digitsOnly, h1, h2]; try omega)
    · rw [List.mem_singleton] at hm
      rw [hm, countDig_append]
      simp [countDig, digitsOnly, h1]
    · simp at hm

theorem mem_g1Alts {l : List Char} {pr : List Char × List Char}
    (hm : pr ∈ g1Alts l) : countDig pr.1 ≤ 3 := by
  unfold g1Alts at hm
  rw [List.mem_append] at hm
  have step : ∀ (pre l2 : List Char), countDig pre = 0 →
      pr ∈ (digits13 pre l2).flatMap (fun pq => sepOpt pq.1 pq.2) → countDig pr.1 ≤ 3 := by
    intro pre l2 hpre hmem
    rw [List.mem_flatMap] at hmem
    obtain ⟨pq, hpq, hsep⟩ := hmem
    have := mem_digits13 hpq
    rw [mem_sepOpt hsep]
    omega
  rcases hm with hm | hm
  · revert hm
    split
    · intro hm
      exact step ['+'] _ (by decide) hm
    · intro hm
      simp at hm
  · exact step [] l (by decide) hm

theorem mem_g1Seq {l : List Char} {pr : List Char × List Char}
    (hm : pr ∈ g1Seq l) : countDig pr.1 ≤ 3 := by
  unfold g1Seq at hm
  rw [List.mem_append, List.mem_singleton] at hm
  rcases hm with hm | hm
  · exact mem_g1Alts hm
  · rw [hm]
    simp [countDig, digitsOnly]

theorem digits3_count {pre l : List Char} {pr : List Char × List Char}
    (h : digits3 pre l = some pr) : countDig pr.1 ≤ countDig pre + 3 := by
  unfold digits3 at h
  split at h
  · rename_i d1 d2 d3 r
    split_ifs at h with hd
    rw [Option.some_inj] at h
    rw [← h, countDig_append]
    simp only [Bool.and_eq_true] at hd
    simp [countDig, digitsOnly, hd.1.1, hd.1.2, hd.2]
  · exact absurd h (by simp)

theorem mem_parenClose {acc l : List Char} {pr : List Char × List Char}
    (hm : pr ∈ parenClose acc l) : countDig pr.1 = countDig acc := by
  unfold parenClose at hm
  split at hm
  · simp only [List.mem_cons, List.not_mem_nil, or_false] at hm
    rcases hm with hm | hm
    · rw [hm, countDig_append]
      have hpc : isDigitC ')' = false := by decide
      simp [countDig, digitsOnly, hpc]
    · rw [hm]
  · rw [List.mem_singleton] at hm
    rw [hm]

theorem mem_g2Alts {l : List Char} {pr : List Char × List Char}
    (hm : pr ∈ g2Alts l) : countDig pr.1 ≤ 3 := by
  unfold g2Alts at hm
  rw [List.mem_append] at hm
  have step : ∀ (pre l2 : List Char), countDig pre = 0 →
      pr ∈ (match digits3 pre l2 with
            | some pq => (parenClose pq.1 pq.2).flatMap (fun pq2 => sepOpt pq2.1 pq2.2)
            | none => []) → countDig pr.1 ≤ 3 := by
    intro pre l2 hpre hmem
    cases hd : digits3 pre l2 with
    | none => rw [hd] at hmem; simp at hmem
    | some pq =>
      rw [hd] at hmem
      rw [List.mem_flatMap] at hmem
      obtain ⟨pq2, hpq2, hsep⟩ := hmem
      have h1 := digits3_count hd
      have h2 := mem_parenClose hpq2
      rw [mem_sepOpt hsep, h2]
      omega
  rcases hm with hm | hm
  · revert hm
    split
    · intro hm
      exact step ['('] _ (by decide) hm
    · intro hm
      simp at hm
  · exact step [] l (by decide) hm

theorem mem_g2Seq {l : List Char} {pr : List Char × List Char}
    (hm : pr ∈ g2Seq l) : countDig pr.1 ≤ 3 := by
  unfold g2Seq at hm
  rw [List.mem_append, List.mem_singleton] at hm
  rcases hm with hm | hm
  · exact mem_g2Alts hm
  · rw [hm]
    simp [countDig, digitsOnly]

theorem firstSome_eq_some {α β : Type} {f : α → Option β} {xs : List α} {b : β}
    (h : firstSome f xs = some b) : ∃ a ∈ xs, f a = some b := by
  induction xs with
  | nil => exact absurd h (by simp [firstSome])
  | cons x rest ih =>
    unfold firstSome at h
    cases hx : f x with
    | some v =>
      rw [hx] at h
      dsimp only at h
      exact ⟨x, by simp, by rw [hx]; exact h⟩
    | none =>
      rw [hx] at h
      dsimp only at h
      obtain ⟨a, ha, hfa⟩ := ih h
      exact ⟨a, by simp [ha], hfa⟩

theorem matchPhoneAt_digits {l g1 g2 r : List Char}
    (h : matchPhoneAt l = some (g1, g2, r)) : countDig g1 ≤ 3 ∧ countDig g2 ≤ 3 := by
  unfold matchPhoneAt at h
  obtain ⟨p1, hp1, h1⟩ := firstSome_eq_some h
  obtain ⟨p2, hp2, h2⟩ := firstSome_eq_some h1
  obtain ⟨rest, _, h3⟩ := firstSome_eq_some h2
  rw [Option.some_inj] at h3
  have e1 : p1.1 = g1 := congrArg (fun t => t.1) h3
  have e2 : p2.1 = g2 := congrArg (fun t => t.2.1) h3
  rw [← e1, ← e2]
  exact ⟨mem_g1Seq hp1, mem_g2Seq hp2⟩

theorem phoneScanAux_digits {fuel : Nat} {l : List Char} {p : List Char × List Char}
    (hm : p ∈ phoneScanAux fuel l) : countDig (p.1 ++ p.2) ≤ 6 := by
  induction fuel generalizing l with
  | zero => simp [phoneScanAux] at hm
  | succ n ih =>
    cases l with
    | nil => simp [phoneScanAux] at hm
    | cons c rest =>
      unfold phoneScanAux at hm
      cases hmt : matchPhoneAt (c :: rest) with
      | none =>
        rw [hmt] at hm
        exact ih hm
      | some t =>
        obtain ⟨a, b, r⟩ := t
        rw [hmt] at hm
        rcases List.mem_cons.mp hm with hm | hm
        · obtain ⟨hd1, hd2⟩ := matchPhoneAt_digits hmt
          rw [hm]
          dsimp only
          rw [countDig_append]
          omega
        · exact ih hm

theorem cleanedPhoneL_nil (l : List Char) : cleanedPhoneL l = [] := by
  unfold cleanedPhoneL
  rw [show ((phoneScan l).filter fun p => 10 ≤ countDig (p.1 ++ p.2)) = [] from ?_]
  · rfl
  · rw [List.filter_eq_nil_iff]
    intro p hp
    have := @phoneScanAux_digits l.length l p hp
    simp only [decide_eq_true_eq]
    omega

theorem extractPhones_nil (s : String) : extractPhones s = [] := by
  rw [extractPhones, cleanedPhoneL_nil]
  rfl

theorem applyLinks_contact {w : World} {base : String} {entries : List (String × String)}
    {ins ins2 : BrandInsights} (h : applyLinks w base entries ins = .ok ins2) :
    ins2.contact_details = ins.contact_details := by
  induction entries generalizing ins with
  | nil =>
    unfold applyLinks at h
    rw [show ins2 = ins by simpa using h.symm]
  | cons e rest ih =>
    obtain ⟨name, url⟩ := e
    unfold applyLinks at h
    dsimp only at h
    split_ifs at h with h1 h2 h3
    · have hh := ih h
      exact hh
    · have hh := ih h
      exact hh
    · cases hf : scrapeFaqs w base url with
      | error e2 => rw [hf] at h; exact absurd h (by simp)
      | ok pairs =>
        rw [hf] at h
        dsimp only at h
        have hh := ih h
        exact hh
    · have hh := ih h
      exact hh

theorem processEntries_takeWhile (es : List Json) :
    (processEntries es).1 =
      (es.takeWhile (fun e => (parseEntry e).toOption.isSome)).filterMap
        (fun e => (parseEntry e).toOption) := by
  induction es with
  | nil => rfl
  | cons e rest ih =>
    cases hp : parseEntry e with
    | ok p =>
      simp [processEntries, hp, List.takeWhile_cons, List.filterMap_cons, Except.toOption, ih]
    | error k =>
      simp [processEntries, hp, List.takeWhile_cons, Except.toOption]

theorem insertNew_mem (s : List String) (y x : String) :
    x ∈ insertNew s y ↔ x ∈ s ∨ x = y := by
  unfold insertNew
  split
  · rename_i hc
    have hc2 : y ∈ s := by simpa using hc
    constructor
    · exact fun h => Or.inl h
    · rintro (h | h)
      · exact h
      · rw [h]; exact hc2
  · rw [List.mem_append, List.mem_singleton]

theorem insertNew_nodup {s : List String} (y : String) (h : s.Nodup) :
    (insertNew s y).Nodup := by
  unfold insertNew
  split
  · exact h
  · rename_i hc
    have hc2 : y ∉ s := by simpa using hc
    rw [List.nodup_append]
    exact ⟨h, List.nodup_singleton y, by simpa using fun hy => hc2 hy⟩

theorem heroStep_mem (s : List String) (n : Node) (x : String) :
    x ∈ heroStep s n ↔ x ∈ s ∨
      (containsStr ((attrOf n "href").getD "") "/products/" = true ∧
       handleOf ((attrOf n "href").getD "") ≠ "" ∧
       x = handleOf ((attrOf n "href").getD "")) := by
  unfold heroStep
  split_ifs with h1 h2
  · rw [insertNew_mem]
    constructor
    · rintro (h | h)
      · exact Or.inl h
      · exact Or.inr ⟨h1, h2, h⟩
    · rintro (h | ⟨_, _, h⟩)
      · exact Or.inl h
      · exact Or.inr h
  · constructor
    · exact fun h => Or.inl h
    · rintro (h | ⟨_, hh, hx⟩)
      · exact h
      · exact absurd hh h2
  · constructor
    · exact fun h => Or.inl h
    · rintro (h | ⟨hh, _, _⟩)
      · exact h
      · exact absurd hh h1

theorem heroFold_mem (l : List Node) (s : List String) (x : String) :
    x ∈ l.foldl heroStep s ↔ x ∈ s ∨ ∃ n ∈ l,
      containsStr ((attrOf n "href").getD "") "/products/" = true ∧
      handleOf ((attrOf n "href").getD "") ≠ "" ∧
      x = handleOf ((attrOf n "href").getD "") := by
  induction l generalizing s with
  | nil => simp
  | cons n rest ih =>
    rw [List.foldl_cons, ih, heroStep_mem]
    constructor
    · rintro ((h | h) | ⟨m, hm, hc⟩)
      · exact Or.inl h
      · exact Or.inr ⟨n, by simp, h⟩
      · exact Or.inr ⟨m, by simp [hm], hc⟩
    · rintro (h | ⟨m, hm, hc⟩)
      · exact Or.inl (Or.inl h)
      · rcases List.mem_cons.mp hm with hm | hm
        · subst hm
          exact Or.inl (Or.inr hc)
        · exact Or.inr ⟨m, hm, hc⟩

theorem heroFold_nodup (l : List Node) (s : List String) (h : s.Nodup) :
    (l.foldl heroStep s).Nodup := by
  induction l generalizing s with
  | nil => exact h
  | cons n rest ih =>
    rw [List.foldl_cons]
    apply ih
    unfold heroStep
    split_ifs <;> first | exact insertNew_nodup _ h | exact h

theorem exceptBind_ok {ε α β : Type} {x : Except ε α} {f : α → Except ε β} {v : β}
    (h : (x >>= f) = .ok v) : ∃ u, x = .ok u ∧ f u = .ok v := by
  cases x with
  | error k => simp [Bind.bind, Except.bind] at h
  | ok u => exact ⟨u, rfl, by simpa [Bind.bind, Except.bind] using h⟩

theorem parseEntry_price {fs : List (String × Json)} {p : Product}
    (h : parseEntry (.obj fs) = .ok p) :
    priceOfVariants (lookupJD fs "variants" (.arr [])) = .ok p.price := by
  unfold parseEntry at h
  dsimp only at h
  obtain ⟨price, hpr, h⟩ := exceptBind_ok h
  obtain ⟨sku, hsk, h⟩ := exceptBind_ok h
  obtain ⟨img, him, h⟩ := exceptBind_ok h
  obtain ⟨idv, hid, h⟩ := exceptBind_ok h
  obtain ⟨tt, htt, h⟩ := exceptBind_ok h
  obtain ⟨vd, hvd, h⟩ := exceptBind_ok h
  obtain ⟨pt, hpt, h⟩ := exceptBind_ok h
  obtain ⟨hdl, hhd, h⟩ := exceptBind_ok h
  obtain ⟨ca, hca, h⟩ := exceptBind_ok h
  rw [Except.ok.injEq] at h
  rw [hpr, show price = p.price from congrArg Product.price h]

theorem priceOf_spec {fs : List (String × Json)} {q : ℚ}
    (h : priceOfVariants (lookupJD fs "variants" (.arr [])) = .ok q) :
    specFirstVariantPrice (.obj fs) = some q := by
  unfold specFirstVariantPrice
  dsimp only
  cases hv : lookupJ fs "variants" with
  | none =>
    rw [show lookupJD fs "variants" (.arr []) = .arr [] by simp [lookupJD, hv]] at h
    rw [show priceOfVariants (.arr []) = .ok 0 from rfl] at h
    rw [Except.ok.injEq] at h
    dsimp only
    rw [h]
  | some j =>
    rw [show lookupJD fs "variants" (.arr []) = j by simp [lookupJD, hv]] at h
    cases j with
    | null =>
      rw [show priceOfVariants .null = .ok 0 from rfl, Except.ok.injEq] at h
      dsimp only
      rw [h]
    | bool b =>
      cases b with
      | false =>
        rw [show priceOfVariants (.bool false) = .ok 0 from rfl, Except.ok.injEq] at h
        dsimp only
        rw [h]
      | true =>
        rw [show priceOfVariants (.bool true) = .error .uncaught from rfl] at h
        exact absurd h (by simp)
    | num q2 =>
      by_cases hq : q2 = 0
      · rw [hq] at h
        rw [show priceOfVariants (.num 0) = .ok 0 by unfold priceOfVariants; simp [pyTruthy],
          Except.ok.injEq] at h
        dsimp only
        rw [h]
      · rw [show priceOfVariants (.num q2) = .error .uncaught by
          unfold priceOfVariants; simp [pyTruthy, hq]] at h
        exact absurd h (by simp)
    | str s =>
      by_cases hs : s = ""
      · rw [hs] at h
        rw [show priceOfVariants (.str "") = .ok 0 by unfold priceOfVariants; simp [pyTruthy],
          Except.ok.injEq] at h
        dsimp only
        rw [h]
      · rw [show priceOfVariants (.str s) = .error .uncaught by
          unfold priceOfVariants; simp [pyTruthy, hs]] at h
        exact absurd h (by simp)
    | obj f2 =>
      cases f2 with
      | nil =>
        rw [show priceOfVariants (.obj []) = .ok 0 from rfl, Except.ok.injEq] at h
        dsimp only
        rw [h]
      | cons kv rest =>
        rw [show priceOfVariants (.obj (kv :: rest)) = .error .caught by
          unfold priceOfVariants; simp [pyTruthy]] at h
        exact absurd h (by simp)
    | arr xs =>
      cases xs with
      | nil =>
        rw [show priceOfVariants (.arr []) = .ok 0 from rfl, Except.ok.injEq] at h
        dsimp only
        rw [h]
      | cons v rest =>
        unfold priceOfVariants at h
        rw [if_pos (by simp [pyTruthy])] at h
        dsimp only at h
        cases v with
        | obj vf =>
          dsimp only
          dsimp only at h
          cases hp : lookupJ vf "price" with
          | none =>
            rw [hp] at h
            dsimp only at h
            rw [Except.ok.injEq] at h
            dsimp only
            rw [h]
          | some pv =>
            rw [hp] at h
            dsimp only at h
            dsimp only
            unfold ratOfJsonPrice
            rw [h]
        | null => exact absurd h (by simp)
        | bool b => exact absurd h (by simp)
        | num q2 => exact absurd h (by simp)
        | str s2 => exact absurd h (by simp)
        | arr a2 => exact absurd h (by simp)

theorem lookupS_append_ne {α : Type} (acc : List (String × α)) (k name : String) (v : α)
    (h : k ≠ name) : lookupS name (acc ++ [(k, v)]) = lookupS name acc := by
  induction acc with
  | nil => simp [lookupS, h]
  | cons e rest ih =>
    obtain ⟨k2, v2⟩ := e
    unfold lookupS
    rw [List.cons_append]
    by_cases hk : k2 = name
    · simp [lookupS, hk]
    · simp only [lookupS, hk, if_false]
      exact ih

theorem lookupS_append_hit {α : Type} (acc : List (String × α)) (name : String) (v : α)
    (h : lookupS name acc = none) : lookupS name (acc ++ [(name, v)]) = some v := by
  induction acc with
  | nil => simp [lookupS]
  | cons e rest ih =>
    obtain ⟨k2, v2⟩ := e
    unfold lookupS at h ⊢
    rw [List.cons_append]
    by_cases hk : k2 = name
    · rw [if_pos hk] at h
      exact absurd h (by simp)
    · rw [if_neg hk] at h
      simp only [lookupS, hk, if_false]
      exact ih h


theorem foundFold_skip (base : String) (doc : Doc) (entries : List (String × String))
    (acc : List (String × String)) (name : String)
    (h : ∀ kn ∈ entries, kn.2 ≠ name) :
    lookupS name (entries.foldl (foundStep base doc) acc) = lookupS name acc := by
  induction entries generalizing acc with
  | nil => rfl
  | cons kn rest ih =>
    rw [List.foldl_cons]
    rw [ih _ (fun e he => h e (by simp [he]))]
    unfold foundStep
    cases findLinkTag doc kn.1 with
    | none => rfl
    | some n => exact lookupS_append_ne _ _ _ _ (h kn (by simp))

theorem foundFold_hit (base : String) (doc : Doc) (entries : List (String × String))
    (acc : List (String × String)) (kw name : String)
    (hmem : (kw, name) ∈ entries) (hnd : (entries.map Prod.snd).Nodup)
    (hacc : lookupS name acc = none) :
    lookupS name (entries.foldl (foundStep base doc) acc) =
      (findLinkTag doc kw).map (fun n => urljoin base ((attrOf n "href").getD "")) := by
  induction entries generalizing acc with
  | nil => simp at hmem
  | cons kn rest ih =>
    rw [List.map_cons, List.nodup_cons] at hnd
    rw [List.foldl_cons]
    rcases List.mem_cons.mp hmem with hm | hm
    · subst hm
      have hrest : ∀ e ∈ rest, e.2 ≠ name := by
        intro e he hne
        apply hnd.1
        rw [← hne]
        show e.2 ∈ List.map Prod.snd rest
        exact List.mem_map_of_mem Prod.snd he
      rw [foundFold_skip _ _ _ _ _ hrest]
      unfold foundStep
      cases findLinkTag doc kw with
      | none => simpa using hacc
      | some n => exact lookupS_append_hit _ _ _ hacc
    · apply ih _ hm hnd.2
      unfold foundStep
      have hne : kn.2 ≠ name := by
        intro he
        exact hnd.1 (by rw [he]; exact List.mem_map_of_mem Prod.snd hm)
      cases findLinkTag doc kn.1 with
      | none => exact hacc
      | some n => rw [lookupS_append_ne _ _ _ _ hne]; exact hacc

theorem lookupS_upsert_ne {α : Type} (m : List (String × α)) (k name : String) (v : α)
    (h : k ≠ name) : lookupS name (upsert k v m) = lookupS name m := by
  induction m with
  | nil => simp [upsert, lookupS, h]
  | cons e rest ih =>
    obtain ⟨k2, v2⟩ := e
    unfold upsert
    by_cases hk : k2 = k
    · rw [if_pos hk]
      unfold lookupS
      rw [if_neg h, hk, if_neg (hk ▸ h)]
    · rw [if_neg hk]
      unfold lookupS
      by_cases h2 : k2 = name
      · rw [if_pos h2, if_pos h2]
      · rw [if_neg h2, if_neg h2]
        exact ih

theorem applyLinks_absent {w : World} {base : String} {entries : List (String × String)}
    {ins ins2 : BrandInsights} {name : String}
    (h : applyLinks w base entries ins = .ok ins2)
    (habs : ∀ kn ∈ entries, kn.1 ≠ name) :
    lookupS name ins2.policies = lookupS name ins.policies ∧
    lookupS name ins2.important_links = lookupS name ins.important_links := by
  induction entries generalizing ins with
  | nil =>
    unfold applyLinks at h
    rw [show ins2 = ins by simpa using h.symm]
    exact ⟨rfl, rfl⟩
  | cons e rest ih =>
    obtain ⟨nm, url⟩ := e
    have hne : nm ≠ name := habs (nm, url) (by simp)
    have habs2 : ∀ kn ∈ rest, kn.1 ≠ name := fun kn hk => habs kn (by simp [hk])
    unfold applyLinks at h
    dsimp only at h
    split_ifs at h with h1 h2 h3
    · have hh := ih h habs2
      rw [hh.1, hh.2]
      exact ⟨rfl, lookupS_upsert_ne _ _ _ _ hne⟩
    · have hh := ih h habs2
      rw [hh.1, hh.2]
      exact ⟨lookupS_upsert_ne _ _ _ _ hne, rfl⟩
    · cases hf : scrapeFaqs w base url with
      | error e2 => rw [hf] at h; exact absurd h (by simp)
      | ok pairs =>
        rw [hf] at h
        dsimp only at h
        have hh := ih h habs2
        rw [hh.1, hh.2]
        exact ⟨rfl, lookupS_upsert_ne _ _ _ _ hne⟩
    · have hh := ih h habs2
      rw [hh.1, hh.2]
      exact ⟨rfl, lookupS_upsert_ne _ _ _ _ hne⟩

/-! ## Claim theorems, counterexamples and witnesses -/

/-- Claim C1 (code bug): with the catalog endpoint answering a non-2xx
status, `raise_for_status` raises httpx.HTTPStatusError, which the
`except (httpx.RequestError, ValueError, KeyError)` clause of
`_fetch_product_catalog` does not list, so the exception escapes `run` and
no InsightRecord is returned, even though the homepage is reachable; the
remaining stages never run.  This contradicts the claim that every
catalog-fetch outcome still yields an InsightRecord. -/
theorem run_raises_on_catalog_status_error :
    runScraper wC1 "https://shop.example" = .error .httpStatusError ∧
    (getSoup wC1 "https://shop.example").isSome = true :=
  ⟨by decide, by decide⟩

/-- Claim C2, counterexample: in a feed whose first entry is malformed
(missing required `title`) and whose second entry is well-formed, the
well-formed entry is not emitted — the single feed-level `try` aborts the
loop at the first failing entry, so the catalog comes back empty. -/
theorem catalog_bad_entry_aborts_rest :
    fetchCatalog wFeedC2 "https://c2.example" = .ok [] ∧
    parseEntry goodEntryC2 = .ok goodProdC2 :=
  ⟨by decide, by decide⟩

/-- Claim C2, amended: the Catalog Reader emits exactly the well-formed
prefix of the feed — every entry before the first failing one, and nothing
after it — while a feed-level failure (unreachable endpoint, non-JSON
body) yields an empty product sequence rather than an error. -/
theorem catalog_reader_prefix_behavior :
    (∀ es : List Json,
      (processEntries es).1 =
        (es.takeWhile (fun e => (parseEntry e).toOption.isSome)).filterMap
          (fun e => (parseEntry e).toOption)) ∧
    (∀ (w : World) (base : String), w.get (base ++ "/products.json") = none →
      fetchCatalog w base = .ok []) ∧
    (∀ (w : World) (base : String) (r : Resp), w.get (base ++ "/products.json") = some r →
      is2xx r.status = true → r.json = none → fetchCatalog w base = .ok []) := by
  refine ⟨processEntries_takeWhile, ?_, ?_⟩
  · intro w base hw
    unfold fetchCatalog
    rw [hw]
  · intro w base r hw h2 hj
    unfold fetchCatalog
    rw [hw]
    dsimp only
    rw [if_pos h2, hj]

/-- Witness for C2: both feed-level failure shapes evaluated at concrete
worlds through the theorem. -/
theorem catalog_reader_prefix_behavior_witness :
    fetchCatalog wConnC2 "https://c2.example" = .ok [] ∧
    fetchCatalog wJsonC2 "https://c2.example" = .ok [] :=
  ⟨catalog_reader_prefix_behavior.2.1 wConnC2 "https://c2.example" rfl,
   catalog_reader_prefix_behavior.2.2 wJsonC2 "https://c2.example" ⟨200, none, []⟩ rfl rfl rfl⟩

/-- Claim C3 (confirmed): the three tiers of `extractFaqs` run strictly in
order; a tier's output is returned exactly when it holds at least one
pair, a later tier runs exactly when every earlier tier yielded zero
pairs, and when the first two tiers yield zero pairs and the page body
extraction succeeds with non-empty text, the result is exactly one pair
with the fixed placeholder question.  The hypothesis that the page has a
main or body element reflects strategy 2 of the source, which
dereferences that element unconditionally. -/
theorem faq_tier_order (w : World) (base url : String) (doc : Doc) (area : Node)
    (hs : getSoup w url = some doc) (hm : mainArea doc = some area) :
    (accordionPairs doc ≠ [] → scrapeFaqs w base url = .ok (accordionPairs doc)) ∧
    (accordionPairs doc = [] → linkedPairs w base area ≠ [] →
      scrapeFaqs w base url = .ok (linkedPairs w base area)) ∧
    (accordionPairs doc = [] → linkedPairs w base area = [] →
      ∀ s, fetchPage w url = some s → s ≠ "" →
        scrapeFaqs w base url = .ok [(generalFaqQuestion, s)]) := by
  refine ⟨?_, ?_, ?_⟩
  · intro h1
    unfold scrapeFaqs
    rw [hs]
    dsimp only
    rw [if_pos (by simpa using h1)]
  · intro h1 h2
    unfold scrapeFaqs
    rw [hs]
    dsimp only
    rw [if_neg (by simpa using h1), hm]
    dsimp only
    rw [if_pos (by simpa using h2)]
  · intro h1 h2 s hf hs2
    unfold scrapeFaqs
    rw [hs]
    dsimp only
    rw [if_neg (by simpa using h1), hm]
    dsimp only
    rw [if_neg (by simpa using h2), hf]
    dsimp only
    rw [if_pos hs2]

/-- Witness for C3: on a page with accordion markup, the accordion tier's
output is returned. -/
theorem faq_tier_order_witness :
    scrapeFaqs wFaqC3 "https://s.example" "https://s.example/pages/faq" =
      .ok (accordionPairs faqDocC3) :=
  (faq_tier_order wFaqC3 "https://s.example" "https://s.example/pages/faq" faqDocC3
    (.elem "body" "" []
      [.elem "details" "" []
        [.elem "h3" "" [] [.text "What is this?"],
         .elem "div" "answer" [] [.text "A shop."]]])
    rfl rfl).1 (by decide)

/-- Claim C4 (code bug): a homepage whose text holds a separated run of
ten digits still yields an empty phone-number list — `re.findall` on the
phone pattern returns only the two capture groups of each match, which
together hold at most six digits, so the at-least-ten-digits retention
branch of the filter is unreachable, contradicting the claim that a run
of ten or more digits is retained. -/
theorem phone_filter_never_retains :
    (extractContact docC4).2 = [] ∧ countDig "123-456-7890".data = 10 :=
  ⟨by decide, by decide⟩

/-- Claim C5, counterexample: the main region's text carries a run of
exactly two consecutive blank lines (three newline characters); the claim
says runs shorter than three blank lines are preserved, but the code's
`re.sub(r'\n{3,}', '\n\n', ...)` collapses this run to a single blank
line. -/
theorem two_blank_line_run_collapsed :
    fetchPage wC5 "https://s.example/p" = some "a\n\nb" ∧
    getTextSepN mainC5 = "a\n\n\nb" ∧
    ("a\n\nb" : String) ≠ "a\n\n\nb" :=
  ⟨by decide, by decide, by decide⟩

/-- Claim C5, amended: `extractBody` returns the main region's text with
one line break per text fragment and every run of two or more consecutive
blank lines (three or more newline characters) collapsed to exactly one
blank line — single blank lines are preserved — and returns absent when
the address is empty, the page fetch fails, or no main region exists. -/
theorem page_content_collapse_behavior :
    (∀ l : List Char, hasNL3 (collapseNL l) = false) ∧
    (∀ l : List Char, hasNL3 l = false → collapseNL l = l) ∧
    (∀ w : World, fetchPage w "" = none) ∧
    (∀ (w : World) (url : String), getSoup w url = none → fetchPage w url = none) ∧
    (∀ (w : World) (url : String) (doc : Doc), getSoup w url = some doc →
      findFirstF (fun n => tagIs n "main") doc = none → fetchPage w url = none) ∧
    (∀ (w : World) (url : String) (doc : Doc) (m : Node), url ≠ "" →
      getSoup w url = some doc → findFirstF (fun n => tagIs n "main") doc = some m →
      fetchPage w url = some (cleanText (getTextSepN m))) := by
  refine ⟨collapseNL_no3, collapseNL_id, ?_, ?_, ?_, ?_⟩
  · intro w
    unfold fetchPage
    rw [if_pos rfl]
  · intro w url hg
    unfold fetchPage
    by_cases hu : url = ""
    · rw [if_pos hu]
    · rw [if_neg hu, hg]
  · intro w url doc hg hm
    unfold fetchPage
    by_cases hu : url = ""
    · rw [if_pos hu]
    · rw [if_neg hu, hg]
      dsimp only
      rw [hm]
  · intro w url doc m hu hg hm
    unfold fetchPage
    rw [if_neg hu, hg]
    dsimp only
    rw [hm]

/-- Witness for C5: the positive branch of the theorem evaluated at a
concrete page. -/
theorem page_content_collapse_behavior_witness :
    fetchPage wC5 "https://s.example/p" = some (cleanText (getTextSepN mainC5)) :=
  page_content_collapse_behavior.2.2.2.2.2 wC5 "https://s.example/p" docC5 mainC5
    (by decide) rfl rfl

/-- Claim C6, counterexample: for a featured link to
`/products/shoe/extra`, the code's handle is the entire remainder after
the marker (`shoe/extra`), not the single path segment `shoe` the claim
describes. -/
theorem hero_handle_not_single_segment :
    heroHandles docC6 = ["shoe/extra"] ∧
    specSingleSegmentHandle "/products/shoe/extra" = "shoe" ∧
    "shoe" ∉ heroHandles docC6 :=
  ⟨by decide, by decide, by decide⟩

/-- Claim C6, amended: `extractHero` returns a duplicate-free list whose
members are exactly the non-empty remainders-after-the-last-`/products/`
(truncated at the first question mark) of the addresses of links inside
main/section elements that contain the substring `/products/` anywhere;
the remainder may span several path segments, and order is not
guaranteed. -/
theorem hero_handles_behavior :
    (∀ (doc : Doc) (x : String),
      x ∈ heroHandles doc ↔ ∃ n ∈ heroATags doc,
        containsStr ((attrOf n "href").getD "") "/products/" = true ∧
        handleOf ((attrOf n "href").getD "") ≠ "" ∧
        x = handleOf ((attrOf n "href").getD "")) ∧
    (∀ doc : Doc, (heroHandles doc).Nodup) := by
  constructor
  · intro doc x
    unfold heroHandles
    rw [heroFold_mem]
    simp
  · intro doc
    exact heroFold_nodup _ _ List.nodup_nil

/-- Claim C7, counterexample: a structurally valid feed entry whose first
variant carries price "-5.00" is emitted with a negative price — the code
passes the feed's price through unchanged and the Product model carries
no non-negativity constraint. -/
theorem negative_price_passthrough :
    fetchCatalog wFeedC7 "https://c7.example" = .ok [prodC7] ∧ prodC7.price < 0 :=
  ⟨by decide, by decide⟩

/-- Claim C7, amended: each emitted Product's price equals the price field
of the entry's first variant (read the way `float` reads it), defaulting
to 0.0 without crashing when the entry has no variants; prices are passed
through unchanged, so an emitted price is non-negative exactly when the
feed's supplying value is. -/
theorem catalog_price_refinement :
    (∀ (e : Json) (p : Product), parseEntry e = .ok p →
      specFirstVariantPrice e = some p.price) ∧
    (∀ (fs : List (String × Json)) (p : Product), parseEntry (.obj fs) = .ok p →
      lookupJ fs "variants" = none → p.price = 0) := by
  have main : ∀ (e : Json) (p : Product), parseEntry e = .ok p →
      specFirstVariantPrice e = some p.price := by
    intro e p h
    cases e with
    | obj fs => exact priceOf_spec (parseEntry_price h)
    | null => exact absurd h (by simp [parseEntry])
    | bool b => exact absurd h (by simp [parseEntry])
    | num q2 => exact absurd h (by simp [parseEntry])
    | str s2 => exact absurd h (by simp [parseEntry])
    | arr xs => exact absurd h (by simp [parseEntry])
  refine ⟨main, ?_⟩
  intro fs p h hv
  have hs := main _ _ h
  unfold specFirstVariantPrice at hs
  dsimp only at hs
  rw [hv] at hs
  dsimp only at hs
  exact (Option.some_inj.mp hs).symm

/-- Witness for C7: the refinement evaluated at a concrete entry whose
first variant is priced 4.50. -/
theorem catalog_price_refinement_witness :
    specFirstVariantPrice entryC7w = some prodC7w.price :=
  catalog_price_refinement.1 entryC7w prodC7w (by decide)

/-- Claim C8, counterexample: a homepage link whose visible text is
"Privacy Policy" but split over a nested element has `.string` None, so
`find('a', text=..., href=True)` never matches it and the label stays
absent — the resolver matches on the link's `.string`, not on its visible
text as the claim states. -/
theorem nested_link_text_not_selected :
    wordSearch "privacy".data (getTextRawN linkC8).data = true ∧
    tagIs linkC8 "a" = true ∧
    (attrOf linkC8 "href").isSome = true ∧
    findFirstF isAHref docC8 = some linkC8 ∧
    foundLinks "https://s.example" docC8 = [] :=
  ⟨by decide, by decide, by decide, rfl, by decide⟩

/-- Claim C8, amended: for each of the ten vocabulary keywords, the
resolver selects the first homepage link carrying an href whose `.string`
content (defined only when the link wraps a single child chain ending in
one text node) contains the keyword case-insensitively with word
boundaries; when no link matches, the label is absent from the policy and
important-link maps (no default path is inferred). -/
theorem link_resolver_string_match :
    (∀ (base : String) (doc : Doc) (kw name : String), (kw, name) ∈ linkMap →
      lookupS name (foundLinks base doc) =
        (findLinkTag doc kw).map (fun n => urljoin base ((attrOf n "href").getD ""))) ∧
    (∀ (w : World) (base : String) (entries : List (String × String))
        (ins ins2 : BrandInsights) (name : String),
      applyLinks w base entries ins = .ok ins2 → (∀ kn ∈ entries, kn.1 ≠ name) →
      lookupS name ins2.policies = lookupS name ins.policies ∧
      lookupS name ins2.important_links = lookupS name ins.important_links) := by
  constructor
  · intro base doc kw name hmem
    exact foundFold_hit base doc linkMap [] kw name hmem (by decide) rfl
  · intro w base entries ins ins2 name h habs
    exact applyLinks_absent h habs

/-- Witness for C8: the keyword `privacy` resolved against a concrete
homepage through the theorem. -/
theorem link_resolver_string_match_witness :
    lookupS "Privacy Policy" (foundLinks "https://s.example" docC8w) =
      (findLinkTag docC8w "privacy").map
        (fun n => urljoin "https://s.example" ((attrOf n "href").getD "")) :=
  link_resolver_string_match.1 "https://s.example" docC8w "privacy" "Privacy Policy" (by decide)

/-- Claim C9 (confirmed): every pair returned by `extractFaqs`, whichever
tier produced it, has non-empty question and answer text. -/
theorem faq_pairs_nonempty (w : World) (base url : String) (pairs : List (String × String))
    (h : scrapeFaqs w base url = .ok pairs) :
    ∀ q a, (q, a) ∈ pairs → q ≠ "" ∧ a ≠ "" := by
  intro q a hmem
  unfold scrapeFaqs at h
  cases hg : getSoup w url with
  | none =>
    rw [hg] at h
    rw [show pairs = [] by simpa using h.symm] at hmem
    simp at hmem
  | some doc =>
    rw [hg] at h
    dsimp only at h
    split at h
    · rw [show pairs = accordionPairs doc by simpa using h.symm] at hmem
      exact accordionPairs_nonempty hmem
    · cases hma : mainArea doc with
      | none => rw [hma] at h; exact absurd h (by simp)
      | some area =>
        rw [hma] at h
        dsimp only at h
        split at h
        · rw [show pairs = linkedPairs w base area by simpa using h.symm] at hmem
          exact linkedPairs_nonempty hmem
        · cases hf : fetchPage w url with
          | none =>
            rw [hf] at h
            rw [show pairs = [] by simpa using h.symm] at hmem
            simp at hmem
          | some s =>
            rw [hf] at h
            dsimp only at h
            split at h
            · rename_i hs2
              rw [show pairs = [(generalFaqQuestion, s)] by simpa using h.symm] at hmem
              rw [List.mem_singleton, Prod.mk.injEq] at hmem
              rw [hmem.1, hmem.2]
              exact ⟨by decide, hs2⟩
            · rw [show pairs = [] by simpa using h.symm] at hmem
              simp at hmem

/-- Witness for C9: the theorem applied to the pair extracted from a
concrete FAQ page. -/
theorem faq_pairs_nonempty_witness :
    ("What is this?" : String) ≠ "" ∧ ("A shop." : String) ≠ "" :=
  faq_pairs_nonempty wFaqC3 "https://s.example" "https://s.example/pages/faq"
    [("What is this?", "A shop.")] rfl "What is this?" "A shop." (by decide)

/-- Claim C10 (confirmed, implicit): for every input text the phone
extraction yields the empty list — each `re.findall` candidate joins only
the two capture groups, which together hold at most six digits, so the
at-least-ten-digits filter never passes — and consequently the
phone_numbers field of every InsightRecord `runScraper` returns is
empty. -/
theorem phone_numbers_always_empty :
    (∀ s : String, extractPhones s = []) ∧
    (∀ (w : World) (u : String) (r : BrandInsights),
      runScraper w u = .ok r → r.contact_details.phone_numbers = []) := by
  refine ⟨extractPhones_nil, ?_⟩
  intro w u r h
  unfold runScraper at h
  cases hc : fetchCatalog w (normalizeBase u) with
  | error e => rw [hc] at h; exact absurd h (by simp)
  | ok products =>
    rw [hc] at h
    dsimp only at h
    cases hg : getSoup w (normalizeBase u) with
    | none =>
      rw [hg] at h
      rw [show r = _ by simpa using h.symm]
    | some doc =>
      rw [hg] at h
      dsimp only at h
      cases hl : extractLinksAndPolicies w (normalizeBase u) doc
          { store_url := normalizeBase u, product_catalog := products,
            social_handles := extractSocial (normalizeBase u) doc,
            contact_details := ⟨(extractContact doc).1, (extractContact doc).2⟩ } with
      | error e => rw [hl] at h; exact absurd h (by simp)
      | ok ins2 =>
        rw [hl] at h
        dsimp only at h
        rw [show r = { ins2 with hero_products := heroHandles doc } by simpa using h.symm]
        have hpres := applyLinks_contact hl
        show ins2.contact_details.phone_numbers = []
        rw [hpres]
        show (extractContact doc).2 = []
        rw [show (extractContact doc).2 = extractPhones (getTextRawF doc) from rfl]
        rw [extractPhones_nil]

/-- Witness for C10: the run-level statement applied to a concrete run. -/
theorem phone_numbers_always_empty_witness :
    runScraper wNoneC10 "example.com" = .ok recC10 ∧
    recC10.contact_details.phone_numbers = [] :=
  ⟨by decide, phone_numbers_always_empty.2 wNoneC10 "example.com" recC10 (by decide)⟩
